import Mathlib

set_option maxRecDepth 100000

/-!
Shallow embedding of the `prisma version` CLI command
(`src/packages/cli/src/Version.ts` of qkbyte/prisma) together with the
constants it reads from `packages/cli/package.json`.

External collaborators (Node's `fs`, `path`, `process.env`, and the
`@prisma/sdk` helpers `engineEnvVarMap`, `resolveEnginePath`, `getVersion`,
`getPlatform`, `getInstalledPrismaClientVersion`, `getCliQueryEngineType`,
`getSchemaPath`, `getSchema`, `getConfig`, `arg`) are modelled as fields of
an `Env` record: the command's code is translated faithfully as functions
over that record.  JavaScript builtins used by the command
(`String.prototype.toLowerCase`/`replace`/`padEnd`, `Array` operations,
`JSON.stringify`) are modelled directly, restricted to the flat
string-to-string objects the command builds.
-/

/-- The engine kinds of `EngineType` from `@prisma/sdk` used by the command:
`queryEngine`, `libqueryEngine`, `migrationEngine`, `introspectionEngine`,
`prismaFmt`. -/
inductive EngineType where
  | queryEngine
  | libqueryEngine
  | migrationEngine
  | introspectionEngine
  | prismaFmt
deriving DecidableEq, Repr

/-- The `EngineInfo` interface of `Version.ts`: resolved path, probed
version and (optionally) the environment variable that supplied the path. -/
structure EngineInfo where
  path : String
  version : String
  fromEnvVar : Option String := none
deriving DecidableEq, Repr

/-- One generator block of the parsed schema configuration, as used by
`getFeatureFlags` (`@prisma/sdk`'s `getConfig` result): only the
`previewFeatures` list is consulted. -/
structure GeneratorConfig where
  previewFeatures : List String
deriving DecidableEq, Repr

/-- The configuration returned by `@prisma/sdk`'s `getConfig`: the command
only reads its `generators` array. -/
structure ConfigMetaFormat where
  generators : List GeneratorConfig
deriving DecidableEq, Repr

/-- The flags recognised by `Version.parse` via `arg`: `--help`/`-h`,
`--version`/`-v`, `--json`, `--telemetry-information`. -/
structure ParsedArgs where
  help : Bool := false
  version : Bool := false
  json : Bool := false
  telemetryInformation : Option String := none
deriving DecidableEq, Repr

/-- The external collaborators of `Version.ts`, modelled as one record of
abstract (but concrete-instantiable) functions.  `envVars` is
`process.env`, `fileExists` is `fs.existsSync`, `pathRelative` is
`path.relative(process.cwd(), ·)`, `arg` is the argument parser (returning
either parsed flags or an error message), and the `Except` results of
`getSchema`/`getConfig` model thrown exceptions. -/
structure Env where
  envVars : String → Option String
  fileExists : String → Bool
  engineEnvVarMap : EngineType → String
  resolveEnginePath : EngineType → String
  getVersion : String → EngineType → String
  pathRelative : String → String
  getPlatform : String
  getInstalledPrismaClientVersion : Option String
  cliQueryEngineType : EngineType
  getSchemaPath : Option String
  getSchema : Except String String
  getConfig : String → Except String ConfigMetaFormat
  arg : List String → Except String ParsedArgs

/-! ### Constants from `packages/cli/package.json` -/

/-- `packageJson.name`. -/
def packageJsonName : String := "prisma"

/-- `packageJson.version`. -/
def packageJsonVersion : String := "0.0.0"

/-- `packageJson.devDependencies['@prisma/studio-server']`. -/
def studioServerVersion : String := "0.460.0"

/-- `packageJson.dependencies['@prisma/engines']`. -/
def enginesDependencyVersion : String :=
  "3.15.0-11.1c05d2fd02981d04d5367319e82f44e1c44ec0b7"

/-- `packageJson.dependencies['@prisma/engines'].split('.').pop()`. -/
def defaultEnginesHash : String :=
  ((enginesDependencyVersion.splitOn ".").getLast?).getD ""

/-! ### `Version.getEngineInfo` -/

/-- `Version.getEngineInfo`: consult the engine-specific override
environment variable; if it is set to a truthy (non-empty) string naming an
existing path, return that path tagged with the variable's name, else fall
through to `resolveEnginePath` with no `fromEnvVar`. -/
def getEngineInfo (env : Env) (engineType : EngineType) : EngineInfo :=
  let envVar := env.engineEnvVarMap engineType
  match env.envVars envVar with
  | some pathFromEnv =>
    if pathFromEnv ≠ "" ∧ env.fileExists pathFromEnv then
      { version := env.getVersion pathFromEnv engineType
        path := pathFromEnv
        fromEnvVar := some envVar }
    else
      let enginePath := env.resolveEnginePath engineType
      { version := env.getVersion enginePath engineType
        path := enginePath
        fromEnvVar := none }
  | none =>
    let enginePath := env.resolveEnginePath engineType
    { version := env.getVersion enginePath engineType
      path := enginePath
      fromEnvVar := none }

/-! ### `Version.getFeatureFlags` -/

/-- `Version.getFeatureFlags`: empty list for a `null` schema path;
otherwise read the schema and its config, take the `previewFeatures` of the
first generator whose list is non-empty, and turn every thrown error
(modelled by the `Except.error` branches) into the empty list.  The
function is total: it never fails. -/
def getFeatureFlags (env : Env) (schemaPath : Option String) : List String :=
  match schemaPath with
  | none => []
  | some _ =>
    match env.getSchema with
    | Except.error _ => []
    | Except.ok datamodel =>
      match env.getConfig datamodel with
      | Except.error _ => []
      | Except.ok config =>
        match config.generators.find? (fun g => g.previewFeatures.length > 0) with
        | some generator => generator.previewFeatures
        | none => []

/-! ### `Version.constructEngineInfoString` -/

/-- `Version.constructEngineInfoString`:
`` `${version} (at ${path.relative(process.cwd(), absolutePath)}${resolved})` ``
where `resolved` is `` `, resolved by ${fromEnvVar}` `` when an override
variable supplied the path, and empty otherwise. -/
def constructEngineInfoString (env : Env) (info : EngineInfo) : String :=
  let resolved :=
    match info.fromEnvVar with
    | some envVar => ", resolved by " ++ envVar
    | none => ""
  info.version ++ " (at " ++ env.pathRelative info.path ++ resolved ++ ")"

/-! ### Row assembly in `Version.parse` -/

/-- The fixed `versionInfoRows` array built in `Version.parse` before the
conditional `Preview Features` push. -/
def versionInfoRows (env : Env) : List (String × String) :=
  let cliQueryEngineType := env.cliQueryEngineType
  let queryEngine := getEngineInfo env cliQueryEngineType
  let migrationEngine := getEngineInfo env EngineType.migrationEngine
  let introspectionEngine := getEngineInfo env EngineType.introspectionEngine
  let fmtEngine := getEngineInfo env EngineType.prismaFmt
  [ (packageJsonName, packageJsonVersion),
    ("@prisma/client", env.getInstalledPrismaClientVersion.getD "Not found"),
    ("Current platform", env.getPlatform),
    ("Query Engine" ++
       (if cliQueryEngineType = EngineType.libqueryEngine then " (Node-API)" else " (Binary)"),
      constructEngineInfoString env queryEngine),
    ("Migration Engine", constructEngineInfoString env migrationEngine),
    ("Introspection Engine", constructEngineInfoString env introspectionEngine),
    ("Format Engine", constructEngineInfoString env fmtEngine),
    ("Studio", studioServerVersion),
    ("Default Engines Hash", defaultEnginesHash) ]

/-- The final row list of `Version.parse`: `versionInfoRows` plus a
`Preview Features` row pushed only when the feature-flag list is
non-empty, its value the flags joined with `', '`. -/
def fullRows (env : Env) : List (String × String) :=
  let featureFlags := getFeatureFlags env env.getSchemaPath
  if featureFlags.length > 0 then
    versionInfoRows env ++ [("Preview Features", String.intercalate ", " featureFlags)]
  else
    versionInfoRows env

/-! ### `slugify` and JSON rendering -/

/-- The character class of JavaScript's regular-expression `\s`, which the
`slugify` replacement uses. -/
def jsWhitespace (c : Char) : Bool :=
  c = ' ' || c = '\t' || c = '\n' || c = '\r' ||
  c.toNat = 0x0b || c.toNat = 0x0c || c.toNat = 0xa0 || c.toNat = 0x1680 ||
  (0x2000 ≤ c.toNat && c.toNat ≤ 0x200a) ||
  c.toNat = 0x2028 || c.toNat = 0x2029 || c.toNat = 0x202f ||
  c.toNat = 0x205f || c.toNat = 0x3000 || c.toNat = 0xfeff

/-- `replace(/\s+/g, '-')` on a character list: each maximal run of
whitespace characters becomes a single `'-'`.  The boolean flag records
whether the previous character belonged to a whitespace run. -/
def collapseWhitespaceRuns : Bool → List Char → List Char
  | _, [] => []
  | prevWs, c :: rest =>
    if jsWhitespace c then
      if prevWs then collapseWhitespaceRuns true rest
      else '-' :: collapseWhitespaceRuns true rest
    else c :: collapseWhitespaceRuns false rest

/-- The `slugify` helper of `Version.ts`:
`str.toString().toLowerCase().replace(/\s+/g, '-')` (ASCII lowering, which
covers every label the command produces). -/
def slugify (s : String) : String :=
  String.mk (collapseWhitespaceRuns false (s.data.map Char.toLower))

/-- JavaScript object insertion `acc[k] = v` on an insertion-ordered
string-keyed object: overwrite the entry of an existing key in place, else
append a new entry. -/
def objInsert : List (String × String) → String → String → List (String × String)
  | [], k, v => [(k, v)]
  | p :: rest, k, v =>
    if p.1 = k then (k, v) :: rest else p :: objInsert rest k v

/-- The `rows.reduce` of `printTable` in JSON mode: start from the empty
object and insert `value` under `slugify(name)` for each row in order. -/
def buildJsonObj (rows : List (String × String)) : List (String × String) :=
  rows.foldl (fun acc r => objInsert acc (slugify r.1) r.2) []

/-- One character of `JSON.stringify` string escaping. -/
def jsonEscapeChar (c : Char) : List Char :=
  if c = '"' then ['\\', '"']
  else if c = '\\' then ['\\', '\\']
  else if c = '\x08' then ['\\', 'b']
  else if c = '\t' then ['\\', 't']
  else if c = '\n' then ['\\', 'n']
  else if c = '\x0c' then ['\\', 'f']
  else if c = '\r' then ['\\', 'r']
  else if c.toNat < 32 then
    ['\\', 'u', '0', '0',
     (if c.toNat / 16 < 10 then Char.ofNat (48 + c.toNat / 16)
      else Char.ofNat (87 + c.toNat / 16)),
     (if c.toNat % 16 < 10 then Char.ofNat (48 + c.toNat % 16)
      else Char.ofNat (87 + c.toNat % 16))]
  else [c]

/-- A JSON string literal as produced by `JSON.stringify`. -/
def jsonQuote (s : String) : String :=
  "\"" ++ String.mk (List.flatten (s.data.map jsonEscapeChar)) ++ "\""

/-- `JSON.stringify(obj, null, 2)` for a flat insertion-ordered object with
string values: `\x7b\x7d` when empty, else each entry on its own line
indented by two spaces, entries separated by `,\n`. -/
def jsonStringify2 (obj : List (String × String)) : String :=
  match obj with
  | [] => "\x7b\x7d"
  | _ =>
    "\x7b\n" ++
      String.intercalate ",\n"
        (obj.map (fun p => "  " ++ jsonQuote p.1 ++ ": " ++ jsonQuote p.2)) ++
    "\n\x7d"

/-! ### `Version.printTable` -/

/-- `String.prototype.padEnd(n)` with the default space filler: append
spaces until the length reaches `n` (no-op when already at least `n`). -/
def padEnd (s : String) (n : Nat) : String :=
  s ++ String.mk (List.replicate (n - s.length) ' ')

/-- The `maxPad` reduction of `printTable`: the maximum label length over
all rows, starting from `0`. -/
def maxPad (rows : List (String × String)) : Nat :=
  rows.foldl (fun acc curr => max acc curr.1.length) 0

/-- `Version.printTable`: in JSON mode, stringify the object built by
slugified-key insertion; in text mode, pad every label to the maximum
label length, join label and value with `' : '`, and join lines with a
newline. -/
def printTable (rows : List (String × String)) (json : Bool) : String :=
  if json then
    jsonStringify2 (buildJsonObj rows)
  else
    String.intercalate "\n"
      (rows.map (fun r => padEnd r.1 (maxPad rows) ++ " : " ++ r.2))

/-! ### `Version.help` and `Version.parse` -/

/-- The static help text of the command (the `format`/`chalk` styling of
the collaborators is modelled as plain text). -/
def versionHelp : String :=
  "\n  Print current version of Prisma components\n\n" ++
  "  Usage\n\n" ++
  "    $ prisma -v [options]\n" ++
  "    $ prisma version [options]\n\n" ++
  "  Options\n\n" ++
  "    -h, --help     Display this help message\n" ++
  "        --json     Output JSON\n"

/-- The result of `Version.parse` (`string | Error`): either a normal
string (help text or rendered report) or a `HelpError`. -/
inductive ParseOutput where
  | output (s : String)
  | helpError (s : String)
deriving DecidableEq, Repr

/-- `Version.help(error?)`: with an error message, a `HelpError` wrapping
the message and the help text; without one, the help text itself. -/
def versionHelpFn (error? : Option String) : ParseOutput :=
  match error? with
  | some e => ParseOutput.helpError ("\n! " ++ e ++ "\n" ++ versionHelp)
  | none => ParseOutput.output versionHelp

/-- `Version.parse`: parse the flags; on a parse error return
`help(message)`; on `--help` return `help()`; otherwise build the row list
and render it with `printTable`, in JSON mode exactly when `--json` was
given. -/
def parse (env : Env) (argv : List String) : ParseOutput :=
  match env.arg argv with
  | Except.error msg => versionHelpFn (some msg)
  | Except.ok args =>
    if args.help then versionHelpFn none
    else ParseOutput.output (printTable (fullRows env) args.json)

/-! ### A concrete instantiation of the collaborators, for evaluation -/

/-- A concrete environment: the query-engine override variable is set to an
existing path, the other override variables are unset, the schema declares
one generator with preview features `["a", "b"]`, and the argument parser
recognises `--help` and `--json` literally. -/
def exEnv : Env where
  envVars := fun v =>
    if v = "PRISMA_QUERY_ENGINE_LIBRARY" then some "/tmp/qe" else none
  fileExists := fun p => p == "/tmp/qe"
  engineEnvVarMap := fun t =>
    match t with
    | EngineType.queryEngine => "PRISMA_QUERY_ENGINE_BINARY"
    | EngineType.libqueryEngine => "PRISMA_QUERY_ENGINE_LIBRARY"
    | EngineType.migrationEngine => "PRISMA_MIGRATION_ENGINE_BINARY"
    | EngineType.introspectionEngine => "PRISMA_INTROSPECTION_ENGINE_BINARY"
    | EngineType.prismaFmt => "PRISMA_FMT_BINARY"
  resolveEnginePath := fun _ => "/opt/engines/engine"
  getVersion := fun _ _ => "v1"
  pathRelative := fun p => p
  getPlatform := "debian-openssl-1.1.x"
  getInstalledPrismaClientVersion := some "3.15.0"
  cliQueryEngineType := EngineType.libqueryEngine
  getSchemaPath := some "/work/schema.prisma"
  getSchema := Except.ok "datamodel"
  getConfig := fun _ => Except.ok ⟨[⟨["a", "b"]⟩]⟩
  arg := fun argv =>
    Except.ok
      { help := argv.contains "--help" || argv.contains "-h"
        version := argv.contains "--version" || argv.contains "-v"
        json := argv.contains "--json"
        telemetryInformation := none }

/-- A concrete environment whose schema read and config extraction both
fail, and with no override variables set. -/
def exEnvErr : Env where
  envVars := fun _ => none
  fileExists := fun _ => false
  engineEnvVarMap := fun _ => "PRISMA_ENGINE_OVERRIDE"
  resolveEnginePath := fun _ => "/opt/engines/engine"
  getVersion := fun _ _ => "v1"
  pathRelative := fun p => p
  getPlatform := "debian-openssl-1.1.x"
  getInstalledPrismaClientVersion := none
  cliQueryEngineType := EngineType.queryEngine
  getSchemaPath := some "/work/schema.prisma"
  getSchema := Except.error "schema parse error"
  getConfig := fun _ => Except.error "config error"
  arg := fun _ => Except.error "unknown or unexpected option"

/-! ### Claims -/

/-- C1: for every engine kind, when the override environment variable
mapped to that kind is set (to a value naming a path that exists on disk),
`getEngineInfo` returns that value as the path, tagged with the variable's
name in `fromEnvVar`.  The hypothesis `hwf` records the collaborator fact
that `fs.existsSync('')` is `false` (the code's truthiness check skips an
empty override value). -/
theorem getEngineInfo_override_used (env : Env) (t : EngineType) (p : String)
    (hwf : env.fileExists "" = false)
    (hset : env.envVars (env.engineEnvVarMap t) = some p)
    (hexists : env.fileExists p = true) :
    getEngineInfo env t =
      { path := p, version := env.getVersion p t,
        fromEnvVar := some (env.engineEnvVarMap t) } := by
  have hne : p ≠ "" := by
    intro h
    rw [h, hwf] at hexists
    exact Bool.noConfusion hexists
  simp [getEngineInfo, hset, hne, hexists]

/-- Witness for C1 at the concrete environment `exEnv` and the
library query engine, whose override variable is set to the existing path
`/tmp/qe`. -/
theorem getEngineInfo_override_used_witness :
    exEnv.fileExists "" = false ∧
    exEnv.envVars (exEnv.engineEnvVarMap EngineType.libqueryEngine) = some "/tmp/qe" ∧
    exEnv.fileExists "/tmp/qe" = true ∧
    getEngineInfo exEnv EngineType.libqueryEngine =
      { path := "/tmp/qe",
        version := exEnv.getVersion "/tmp/qe" EngineType.libqueryEngine,
        fromEnvVar := some (exEnv.engineEnvVarMap EngineType.libqueryEngine) } :=
  ⟨by decide, by decide, by decide,
   getEngineInfo_override_used exEnv EngineType.libqueryEngine "/tmp/qe"
     (by decide) (by decide) (by decide)⟩

/-- C2: for every engine kind, when the override environment variable is
unset, or set to a value naming a path that does not exist on disk,
`getEngineInfo` falls back to `resolveEnginePath` and reports no
`fromEnvVar`. -/
theorem getEngineInfo_default_resolution (env : Env) (t : EngineType)
    (h : env.envVars (env.engineEnvVarMap t) = none ∨
         ∃ p, env.envVars (env.engineEnvVarMap t) = some p ∧ env.fileExists p = false) :
    getEngineInfo env t =
      { path := env.resolveEnginePath t,
        version := env.getVersion (env.resolveEnginePath t) t,
        fromEnvVar := none } := by
  rcases h with h | ⟨p, hset, hex⟩
  · simp [getEngineInfo, h]
  · simp [getEngineInfo, hset, hex]

/-- Witness for C2 at `exEnv` and the migration engine, whose override
variable is unset. -/
theorem getEngineInfo_default_resolution_witness :
    exEnv.envVars (exEnv.engineEnvVarMap EngineType.migrationEngine) = none ∧
    getEngineInfo exEnv EngineType.migrationEngine =
      { path := exEnv.resolveEnginePath EngineType.migrationEngine,
        version := exEnv.getVersion (exEnv.resolveEnginePath EngineType.migrationEngine)
          EngineType.migrationEngine,
        fromEnvVar := none } :=
  ⟨by decide,
   getEngineInfo_default_resolution exEnv EngineType.migrationEngine (Or.inl (by decide))⟩

/-- C3: `getFeatureFlags` never fails (it is a total function into
`List String`); a `null` schema path yields the empty list, and a failed
schema read or a failed config extraction is swallowed into the same empty
list as the no-flags-found case. -/
theorem getFeatureFlags_never_fails (env : Env) :
    getFeatureFlags env none = [] ∧
    (∀ p e, env.getSchema = Except.error e → getFeatureFlags env (some p) = []) ∧
    (∀ p dm e, env.getSchema = Except.ok dm → env.getConfig dm = Except.error e →
      getFeatureFlags env (some p) = []) ∧
    (∀ p dm cfg, env.getSchema = Except.ok dm → env.getConfig dm = Except.ok cfg →
      cfg.generators.find? (fun g => g.previewFeatures.length > 0) = none →
      getFeatureFlags env (some p) = []) := by
  refine ⟨rfl, ?_, ?_, ?_⟩
  · intro p e h
    simp [getFeatureFlags, h]
  · intro p dm e h1 h2
    simp [getFeatureFlags, h1, h2]
  · intro p dm cfg h1 h2 h3
    simp [getFeatureFlags, h1, h2, h3]

/-- Witness for C3 at `exEnvErr`, whose schema read fails. -/
theorem getFeatureFlags_never_fails_witness :
    getFeatureFlags exEnvErr none = [] ∧
    exEnvErr.getSchema = Except.error "schema parse error" ∧
    getFeatureFlags exEnvErr (some "/work/schema.prisma") = [] :=
  ⟨(getFeatureFlags_never_fails exEnvErr).1,
   rfl,
   (getFeatureFlags_never_fails exEnvErr).2.1 "/work/schema.prisma"
     "schema parse error" rfl⟩

/-- No row of the fixed `versionInfoRows` list carries the label
`Preview Features`. -/
theorem previewFeatures_notMem_versionInfoRows (env : Env) (v : String) :
    ("Preview Features", v) ∉ versionInfoRows env := by
  intro h
  by_cases hq : env.cliQueryEngineType = EngineType.libqueryEngine <;>
    simp [versionInfoRows, hq, packageJsonName, Prod.ext_iff] at h

/-- C4: the `Preview Features` row is appended exactly when the extracted
feature-flag list is non-empty; its value is the flags joined with the
literal separator `', '` (so `["a", "b"]` renders as `"a, b"`); and the
flags are those of the first generator whose preview-feature list is
non-empty. -/
theorem previewFeatures_row_iff (env : Env) :
    ((∃ v, ("Preview Features", v) ∈ fullRows env) ↔
      getFeatureFlags env env.getSchemaPath ≠ []) ∧
    (∀ v, ("Preview Features", v) ∈ fullRows env →
      v = String.intercalate ", " (getFeatureFlags env env.getSchemaPath)) ∧
    (∀ sp dm cfg, env.getSchemaPath = some sp → env.getSchema = Except.ok dm →
      env.getConfig dm = Except.ok cfg →
      getFeatureFlags env env.getSchemaPath =
        ((cfg.generators.find? (fun g => g.previewFeatures.length > 0)).map
          (fun g => g.previewFeatures)).getD []) ∧
    String.intercalate ", " ["a", "b"] = "a, b" := by
  refine ⟨?_, ?_, ?_, by decide⟩
  · by_cases hf : (getFeatureFlags env env.getSchemaPath).length > 0
    · constructor
      · intro _
        intro hnil
        rw [hnil] at hf
        simp at hf
      · intro _
        refine ⟨String.intercalate ", " (getFeatureFlags env env.getSchemaPath), ?_⟩
        simp [fullRows, hf]
    · have hnil : getFeatureFlags env env.getSchemaPath = [] := by
        cases h : getFeatureFlags env env.getSchemaPath with
        | nil => rfl
        | cons a l => rw [h] at hf; simp at hf
      constructor
      · rintro ⟨v, hv⟩
        rw [fullRows] at hv
        simp [hf] at hv
        exact absurd hv (previewFeatures_notMem_versionInfoRows env v)
      · intro h
        exact absurd hnil h
  · intro v hv
    rw [fullRows] at hv
    by_cases hf : (getFeatureFlags env env.getSchemaPath).length > 0
    · simp [hf] at hv
      rcases hv with hv | hv
      · exact absurd hv (previewFeatures_notMem_versionInfoRows env v)
      · exact hv
    · simp [hf] at hv
      exact absurd hv (previewFeatures_notMem_versionInfoRows env v)
  · intro sp dm cfg hsp hdm hcfg
    rw [hsp]
    simp [getFeatureFlags, hdm, hcfg]
    cases cfg.generators.find? (fun g => g.previewFeatures.length > 0) with
    | none => rfl
    | some g => rfl

/-- Witness for C4 at `exEnv`, whose schema declares one generator with
preview features `["a", "b"]`. -/
theorem previewFeatures_row_iff_witness :
    getFeatureFlags exEnv exEnv.getSchemaPath ≠ [] ∧
    (∃ v, ("Preview Features", v) ∈ fullRows exEnv) ∧
    exEnv.getSchemaPath = some "/work/schema.prisma" ∧
    getFeatureFlags exEnv exEnv.getSchemaPath =
      ((((ConfigMetaFormat.mk [GeneratorConfig.mk ["a", "b"]]).generators.find?
        (fun g => g.previewFeatures.length > 0)).map
          (fun g => g.previewFeatures)).getD []) :=
  ⟨by decide,
   (previewFeatures_row_iff exEnv).1.mpr (by decide),
   rfl,
   (previewFeatures_row_iff exEnv).2.2.1 "/work/schema.prisma" "datamodel"
     (ConfigMetaFormat.mk [GeneratorConfig.mk ["a", "b"]]) rfl rfl rfl⟩

/-- Inserting a fresh key into an insertion-ordered object appends it. -/
theorem objInsert_of_forall_ne (acc : List (String × String)) (k v : String)
    (h : ∀ q ∈ acc, q.1 ≠ k) : objInsert acc k v = acc ++ [(k, v)] := by
  induction acc with
  | nil => rfl
  | cons p rest ih =>
    have hp : p.1 ≠ k := h p (List.mem_cons_self p rest)
    simp [objInsert, hp]
    exact ih (fun q hq => h q (List.mem_cons_of_mem p hq))

/-- The JSON-object reduction of `printTable`, run on rows whose slugified
labels are pairwise distinct and fresh for the accumulator, appends one
entry per row in order. -/
theorem foldl_objInsert_eq_append_map (rows : List (String × String)) :
    ∀ acc : List (String × String),
    (∀ r ∈ rows, ∀ q ∈ acc, q.1 ≠ slugify r.1) →
    (rows.map (fun r => slugify r.1)).Nodup →
    rows.foldl (fun a r => objInsert a (slugify r.1) r.2) acc =
      acc ++ rows.map (fun r => (slugify r.1, r.2)) := by
  induction rows with
  | nil => intro acc _ _; simp
  | cons r rest ih =>
    intro acc hdisj hnodup
    rw [List.foldl_cons,
      objInsert_of_forall_ne acc (slugify r.1) r.2
        (hdisj r (List.mem_cons_self r rest))]
    rw [List.map_cons, List.nodup_cons] at hnodup
    rw [ih (acc ++ [(slugify r.1, r.2)]) ?_ hnodup.2]
    · simp
    · intro r' hr' q hq
      rcases List.mem_append.mp hq with hq | hq
      · exact hdisj r' (List.mem_cons_of_mem r hr') q hq
      · rcases List.mem_singleton.mp hq with rfl
        intro hcontra
        apply hnodup.1
        have heq : slugify r.1 = slugify r'.1 := hcontra
        rw [heq]
        exact List.mem_map_of_mem (fun x => slugify x.1) hr'

/-- C5: in JSON mode, when the slugified labels are pairwise distinct
(as they are for every report the command builds), the output object has
one entry per row whose key is the slugified label; the label
`Query Engine (Node-API)` slugifies to `query-engine-(node-api)`; and the
object is serialized pretty-printed with two-space indentation. -/
theorem printTable_json_slugified_keys (rows : List (String × String))
    (hnodup : (rows.map (fun r => slugify r.1)).Nodup) :
    printTable rows true =
      jsonStringify2 (rows.map (fun r => (slugify r.1, r.2))) ∧
    slugify "Query Engine (Node-API)" = "query-engine-(node-api)" ∧
    printTable [("Query Engine (Node-API)", "3.15.0")] true =
      "\x7b\n  \"query-engine-(node-api)\": \"3.15.0\"\n\x7d" := by
  refine ⟨?_, by decide, by decide⟩
  have hobj : buildJsonObj rows = rows.map (fun r => (slugify r.1, r.2)) := by
    rw [buildJsonObj,
      foldl_objInsert_eq_append_map rows [] (by intro r _ q hq; simp at hq) hnodup]
    simp
  simp [printTable, hobj]

/-- Witness for C5 at a two-row list with distinct slugified labels. -/
theorem printTable_json_slugified_keys_witness :
    ([("Query Engine (Node-API)", "3.15.0"), ("Current platform", "debian")].map
      (fun r => slugify r.1)).Nodup ∧
    printTable [("Query Engine (Node-API)", "3.15.0"), ("Current platform", "debian")] true =
      jsonStringify2
        ([("Query Engine (Node-API)", "3.15.0"), ("Current platform", "debian")].map
          (fun r => (slugify r.1, r.2))) :=
  ⟨by decide,
   (printTable_json_slugified_keys
     [("Query Engine (Node-API)", "3.15.0"), ("Current platform", "debian")]
     (by decide)).1⟩

/-- C6: in text mode every line is the label right-padded with spaces to
the maximum label length, then `' : '`, then the value, and the lines are
joined by single newlines; the rows `[["A", "1"], ["BB", "22"]]` render as
the lines `A  : 1` and `BB : 22`. -/
theorem printTable_text_layout :
    (∀ rows : List (String × String),
      printTable rows false =
        String.intercalate "\n"
          (rows.map (fun r =>
            r.1 ++ String.mk (List.replicate (maxPad rows - r.1.length) ' ') ++
              " : " ++ r.2))) ∧
    printTable [("A", "1"), ("BB", "22")] false = "A  : 1\nBB : 22" := by
  refine ⟨?_, by decide⟩
  intro rows
  simp [printTable, padEnd]

/-- C7: whenever the argument vector parses successfully with the help
flag set (whatever the other flags are), `parse` returns the help text and
no report. -/
theorem parse_help_short_circuits (env : Env) (argv : List String)
    (args : ParsedArgs) (hargs : env.arg argv = Except.ok args)
    (hhelp : args.help = true) :
    parse env argv = ParseOutput.output versionHelp := by
  simp [parse, hargs, hhelp, versionHelpFn]

/-- Witness for C7 at `exEnv` with the vector `["--help", "--json"]`. -/
theorem parse_help_short_circuits_witness :
    exEnv.arg ["--help", "--json"] =
      Except.ok { help := true, version := false, json := true,
                  telemetryInformation := none } ∧
    ({ help := true, version := false, json := true,
       telemetryInformation := none } : ParsedArgs).help = true ∧
    parse exEnv ["--help", "--json"] = ParseOutput.output versionHelp :=
  ⟨rfl, rfl,
   parse_help_short_circuits exEnv ["--help", "--json"]
     { help := true, version := false, json := true, telemetryInformation := none }
     rfl rfl⟩

/-- The optional `Preview Features` push never disturbs the first nine
rows: index lookups below `9` read `versionInfoRows`. -/
theorem fullRows_getElem?_lt_nine (env : Env) (i : Nat) (hi : i < 9) :
    (fullRows env)[i]? = (versionInfoRows env)[i]? := by
  have hlen : (versionInfoRows env).length = 9 := by simp [versionInfoRows]
  rw [fullRows]
  split
  · rw [List.getElem?_append_left (by rw [hlen]; exact hi)]
  · rfl

/-- C8: the `@prisma/client` row (row index 1 of every report) carries the
installed client version when one was found, and the literal `Not found`
otherwise. -/
theorem clientVersion_row (env : Env) :
    (∀ c, env.getInstalledPrismaClientVersion = some c →
      (fullRows env)[1]? = some ("@prisma/client", c)) ∧
    (env.getInstalledPrismaClientVersion = none →
      (fullRows env)[1]? = some ("@prisma/client", "Not found")) := by
  constructor
  · intro c hc
    rw [fullRows_getElem?_lt_nine env 1 (by decide)]
    simp [versionInfoRows, hc]
  · intro hc
    rw [fullRows_getElem?_lt_nine env 1 (by decide)]
    simp [versionInfoRows, hc]

/-- Witness for C8 at `exEnv` (client version found) and `exEnvErr`
(client version absent). -/
theorem clientVersion_row_witness :
    exEnv.getInstalledPrismaClientVersion = some "3.15.0" ∧
    (fullRows exEnv)[1]? = some ("@prisma/client", "3.15.0") ∧
    exEnvErr.getInstalledPrismaClientVersion = none ∧
    (fullRows exEnvErr)[1]? = some ("@prisma/client", "Not found") :=
  ⟨rfl, (clientVersion_row exEnv).1 "3.15.0" rfl,
   rfl, (clientVersion_row exEnvErr).2 rfl⟩

/-- Looking up a key after a JavaScript-style object insertion sees the
newly inserted value exactly at the inserted key. -/
theorem lookup_objInsert (obj : List (String × String)) (k kIns v : String) :
    List.lookup k (objInsert obj kIns v) =
      if k = kIns then some v else List.lookup k obj := by
  induction obj with
  | nil =>
    by_cases hk : k = kIns
    · subst hk
      simp [objInsert]
    · have hbeq : (k == kIns) = false := beq_eq_false_iff_ne.mpr hk
      simp [objInsert, List.lookup_cons, hbeq, hk]
  | cons p rest ih =>
    rcases p with ⟨pk, pv⟩
    by_cases hp : pk = kIns
    · subst hp
      by_cases hk : k = pk
      · subst hk
        simp [objInsert]
      · have hbeq : (k == pk) = false := beq_eq_false_iff_ne.mpr hk
        simp [objInsert, List.lookup_cons, hbeq, hk]
    · by_cases hk : k = pk
      · subst hk
        simp [objInsert, hp, List.lookup_cons, ih]
      · have hbeq : (k == pk) = false := beq_eq_false_iff_ne.mpr hk
        simp [objInsert, hp, List.lookup_cons, hbeq, ih]

/-- Running the JSON-object reduction from any accumulator, a key's final
value is the value of the last row slugifying to it, or the accumulator's
entry when no row does. -/
theorem lookup_foldl_objInsert (rows : List (String × String)) :
    ∀ (acc : List (String × String)) (k : String),
    List.lookup k (rows.foldl (fun a r => objInsert a (slugify r.1) r.2) acc) =
      match rows.reverse.find? (fun r => slugify r.1 == k) with
      | some r => some r.2
      | none => List.lookup k acc := by
  induction rows with
  | nil => intro acc k; rfl
  | cons r rest ih =>
    intro acc k
    rw [List.foldl_cons, ih, List.reverse_cons, List.find?_append]
    cases hf : rest.reverse.find? (fun r => slugify r.1 == k) with
    | some hit => simp [hf]
    | none =>
      simp only [hf, Option.none_or]
      by_cases hk : slugify r.1 = k
      · have hbeq : (slugify r.1 == k) = true := beq_iff_eq.mpr hk
        simp [List.find?, hbeq, lookup_objInsert, hk.symm]
      · have hbeq : (slugify r.1 == k) = false := beq_eq_false_iff_ne.mpr hk
        simp [List.find?, hbeq, lookup_objInsert]
        intro h
        exact absurd h.symm hk

/-- An object insertion grows the object by at most one entry. -/
theorem objInsert_length_le (obj : List (String × String)) (k v : String) :
    (objInsert obj k v).length ≤ obj.length + 1 := by
  induction obj with
  | nil => simp [objInsert]
  | cons p rest ih =>
    by_cases hp : p.1 = k <;> simp [objInsert, hp]
    omega

/-- The JSON-object reduction never produces more entries than it started
with plus one per row. -/
theorem foldl_objInsert_length_le (rows : List (String × String)) :
    ∀ acc : List (String × String),
    (rows.foldl (fun a r => objInsert a (slugify r.1) r.2) acc).length ≤
      acc.length + rows.length := by
  induction rows with
  | nil => intro acc; simp
  | cons r rest ih =>
    intro acc
    rw [List.foldl_cons]
    calc (rest.foldl (fun a r => objInsert a (slugify r.1) r.2)
            (objInsert acc (slugify r.1) r.2)).length
        ≤ (objInsert acc (slugify r.1) r.2).length + rest.length := ih _
      _ ≤ (acc.length + 1) + rest.length := by
          have := objInsert_length_le acc (slugify r.1) r.2
          omega
      _ = acc.length + (r :: rest).length := by simp; omega

/-- C9: in JSON mode, when several rows slugify to the same key, the value
stored under that key is the last such row's value (the earlier one is
overwritten), so the object can have fewer entries than there are rows —
witnessed concretely by the labels `A B` and `A  B`, which both slugify to
`a-b`. -/
theorem buildJsonObj_last_row_wins (rows : List (String × String)) (k : String) :
    List.lookup k (buildJsonObj rows) =
      (rows.reverse.find? (fun r => slugify r.1 == k)).map (fun r => r.2) ∧
    (buildJsonObj rows).length ≤ rows.length ∧
    buildJsonObj [("A B", "1"), ("A  B", "2")] = [("a-b", "2")] ∧
    (buildJsonObj [("A B", "1"), ("A  B", "2")]).length <
      [("A B", "1"), ("A  B", "2")].length := by
  refine ⟨?_, ?_, by decide, by decide⟩
  · rw [buildJsonObj, lookup_foldl_objInsert rows [] k]
    cases rows.reverse.find? (fun r => slugify r.1 == k) <;> simp
  · have := foldl_objInsert_length_le rows []
    simpa [buildJsonObj] using this

/-- The shape of every engine row value:
`<version> (at <relative path><optional ", resolved by <ENV_VAR>">)`. -/
def engineValueShape (s : String) : Prop :=
  ∃ ver p opt, s = ver ++ " (at " ++ p ++ opt ++ ")" ∧
    (opt = "" ∨ ∃ envVar, opt = ", resolved by " ++ envVar)

/-- Every string built by `constructEngineInfoString` has the engine-row
value shape. -/
theorem constructEngineInfoString_shape (env : Env) (info : EngineInfo) :
    engineValueShape (constructEngineInfoString env info) := by
  cases h : info.fromEnvVar with
  | none =>
    exact ⟨info.version, env.pathRelative info.path, "",
      by simp [constructEngineInfoString, h], Or.inl rfl⟩
  | some ev =>
    exact ⟨info.version, env.pathRelative info.path, ", resolved by " ++ ev,
      by simp [constructEngineInfoString, h], Or.inr ⟨ev, rfl⟩⟩

/-- C10: the query-engine row (index 3) is labelled
`Query Engine (Node-API)` exactly when the CLI query-engine type is the
library engine and `Query Engine (Binary)` otherwise; the full label list
is fixed apart from that one label (and the optional trailing
`Preview Features` row); and every engine row's value has the shape
`<version> (at <relative path><optional ", resolved by <ENV_VAR>">)`. -/
theorem queryEngine_label_and_engine_values (env : Env) :
    (env.cliQueryEngineType = EngineType.libqueryEngine →
      ((fullRows env)[3]?).map Prod.fst = some "Query Engine (Node-API)") ∧
    (env.cliQueryEngineType ≠ EngineType.libqueryEngine →
      ((fullRows env)[3]?).map Prod.fst = some "Query Engine (Binary)") ∧
    ((fullRows env).map Prod.fst =
      [packageJsonName, "@prisma/client", "Current platform",
       "Query Engine" ++
         (if env.cliQueryEngineType = EngineType.libqueryEngine
          then " (Node-API)" else " (Binary)"),
       "Migration Engine", "Introspection Engine", "Format Engine", "Studio",
       "Default Engines Hash"] ++
      (if getFeatureFlags env env.getSchemaPath = [] then []
       else ["Preview Features"])) ∧
    (∀ i, 3 ≤ i → i ≤ 6 → ∀ lv : String × String,
      (fullRows env)[i]? = some lv → engineValueShape lv.2) := by
  refine ⟨?_, ?_, ?_, ?_⟩
  · intro hlib
    rw [fullRows_getElem?_lt_nine env 3 (by decide)]
    simp [versionInfoRows, hlib]
  · intro hlib
    rw [fullRows_getElem?_lt_nine env 3 (by decide)]
    simp [versionInfoRows, hlib]
  · rw [fullRows]
    split
    · rename_i h
      have hne : getFeatureFlags env env.getSchemaPath ≠ [] := by
        intro hnil
        rw [hnil] at h
        simp at h
      simp [versionInfoRows, hne]
    · rename_i h
      have hnil : getFeatureFlags env env.getSchemaPath = [] := by
        cases h' : getFeatureFlags env env.getSchemaPath with
        | nil => rfl
        | cons a l => rw [h'] at h; simp at h
      simp [versionInfoRows, hnil]
  · intro i h3 h6 lv hlv
    rw [fullRows_getElem?_lt_nine env i (by omega)] at hlv
    interval_cases i
    · simp [versionInfoRows] at hlv
      subst hlv
      exact constructEngineInfoString_shape env _
    · simp [versionInfoRows] at hlv
      subst hlv
      exact constructEngineInfoString_shape env _
    · simp [versionInfoRows] at hlv
      subst hlv
      exact constructEngineInfoString_shape env _
    · simp [versionInfoRows] at hlv
      subst hlv
      exact constructEngineInfoString_shape env _

/-- Witness for C10: the library engine type at `exEnv` yields the
`Node-API` label, the binary engine type at `exEnvErr` yields the `Binary`
label, and the query-engine row value of `exEnv` has the engine-value
shape. -/
theorem queryEngine_label_and_engine_values_witness :
    exEnv.cliQueryEngineType = EngineType.libqueryEngine ∧
    ((fullRows exEnv)[3]?).map Prod.fst = some "Query Engine (Node-API)" ∧
    exEnvErr.cliQueryEngineType ≠ EngineType.libqueryEngine ∧
    ((fullRows exEnvErr)[3]?).map Prod.fst = some "Query Engine (Binary)" ∧
    engineValueShape
      ("v1 (at /tmp/qe, resolved by PRISMA_QUERY_ENGINE_LIBRARY)") :=
  ⟨rfl,
   (queryEngine_label_and_engine_values exEnv).1 rfl,
   by decide,
   (queryEngine_label_and_engine_values exEnvErr).2.1 (by decide),
   by
     have h := (queryEngine_label_and_engine_values exEnv).2.2.2 3
       (by decide) (by decide)
       ("Query Engine (Node-API)",
        "v1 (at /tmp/qe, resolved by PRISMA_QUERY_ENGINE_LIBRARY)")
       (by decide)
     exact h⟩
